import Mathlib

/-!
Verification of the period-scoped ledger and aggregation engine of the
personal-expense-tracker app, against its natural-language specification.

The embedding models the TypeScript sources:
  * `src/types/monthPeriod.ts` — `MonthPeriod`, `isDateInPeriod`, `createMonthPeriod`;
  * `src/types/expense.ts`, `src/types/income.ts` — transaction records;
  * `src/services/storage.ts` — the period registry, ledger CRUD,
    per-period filtering/aggregation and the recovery-code check.

Modelling conventions:
  * Dates (ISO strings in the source, always compared through
    `new Date(s).getTime()`) are modelled as natural-number millisecond
    timestamps.  `endDate.setDate(endDate.getDate() + 30)` is modelled as
    adding 30 whole days of milliseconds (a DST-free timezone model).
  * JavaScript numbers (transaction amounts) are modelled as exact
    rationals; no property proved here depends on floating-point rounding.
  * `AsyncStorage` is an abstract key-value store.  Each storage-backed
    function is modelled as a function of the currently stored value;
    fallible operations additionally take Boolean read-failure /
    write-failure flags and return `Except Unit`, mirroring the
    `try`/`catch` structure of the source (`Except.error` = the function
    rethrows, `Except.ok` = the function returns normally with the given
    stored contents after the call).
  * `Array.prototype.sort` (required stable, sorted w.r.t. the comparator)
    is modelled by the stable `List.mergeSort`.
  * `formatPeriodName` (locale-dependent month/day rendering) is kept
    abstract as a parameter `fmt : Nat → Nat → String`; no claim depends
    on the display name.
-/

/-- Period record, from `src/types/monthPeriod.ts` lines 1-7. -/
structure MonthPeriod where
  id : String
  startDate : Nat
  endDate : Nat
  name : String
  isActive : Bool
deriving DecidableEq

/-- Expense record, from `src/types/expense.ts`. -/
structure Expense where
  id : String
  amount : ℚ
  description : String
  category : String
  date : Nat
deriving DecidableEq

/-- Income record, from `src/types/income.ts`. -/
structure Income where
  id : String
  amount : ℚ
  description : String
  source : String
  date : Nat
deriving DecidableEq

/-- Expense payload without an id (`Omit<Expense, 'id'>` in `addExpense`). -/
structure ExpenseData where
  amount : ℚ
  description : String
  category : String
  date : Nat
deriving DecidableEq

/-- Income payload without an id (`Omit<Income, 'id'>` in `addIncome`). -/
structure IncomeData where
  amount : ℚ
  description : String
  source : String
  date : Nat
deriving DecidableEq

/-- Milliseconds in one day; `setDate (+ 30)` advances the timestamp by
`30 * msPerDay` in the DST-free model. -/
def msPerDay : Nat := 86400000

/-- From `src/types/monthPeriod.ts` lines 12-17: inclusive date-range check
`checkDate >= start && checkDate <= end`. -/
def isDateInPeriod (date : Nat) (period : MonthPeriod) : Bool :=
  decide (period.startDate ≤ date) && decide (date ≤ period.endDate)

/-- From `src/types/monthPeriod.ts` lines 22-36: builds a period whose
`id` is `startDate.getTime().toString()` (the decimal string of the start
timestamp), whose `endDate` is the start plus 30 days, and whose name
falls back to the locale formatter `fmt` when no custom name is given. -/
def createMonthPeriod (fmt : Nat → Nat → String) (startDate : Nat)
    (customName : Option String) (isActive : Bool) : MonthPeriod :=
  let endDate := startDate + 30 * msPerDay
  { id := Nat.repr startDate
    startDate := startDate
    endDate := endDate
    name := customName.getD (fmt startDate endDate)
    isActive := isActive }

/-- Comparator used by `getAllPeriods` (`storage.ts` lines 153-165): the JS
comparator `(a, b) => b.startDate - a.startDate` sorts by start date
descending, so `a` may precede `b` exactly when `b.startDate ≤ a.startDate`. -/
def periodLE (a b : MonthPeriod) : Bool :=
  decide (b.startDate ≤ a.startDate)

/-- From `storage.ts` lines 153-165 (`getAllPeriods`): read the stored
period list and return it sorted by start date descending (stable). -/
def getAllPeriods (stored : List MonthPeriod) : List MonthPeriod :=
  stored.mergeSort periodLE

/-- From `storage.ts` lines 170-178 (`getActivePeriod`): first stored
period with `isActive` set, if any. -/
def getActivePeriod (stored : List MonthPeriod) : Option MonthPeriod :=
  (getAllPeriods stored).find? (fun p => p.isActive)

/-- From `storage.ts` lines 183-195 (`setActivePeriod`): rewrite every
period with `isActive := (p.id === periodId)` and store the result. -/
def setActivePeriod (periodId : String) (stored : List MonthPeriod) :
    List MonthPeriod :=
  (getAllPeriods stored).map (fun p => { p with isActive := p.id == periodId })

/-- From `storage.ts` lines 200-217 (`createCustomPeriod`): deactivate all
existing periods, create the new period as active, prepend it, store, and
return it.  The result pair is (returned period, new stored list). -/
def createCustomPeriod (fmt : Nat → Nat → String) (startDate : Nat)
    (customName : Option String) (stored : List MonthPeriod) :
    MonthPeriod × List MonthPeriod :=
  let updatedPeriods := (getAllPeriods stored).map (fun p => { p with isActive := false })
  let newPeriod := createMonthPeriod fmt startDate customName true
  (newPeriod, newPeriod :: updatedPeriods)

/-- From `storage.ts` lines 222-238 (`deletePeriod`): drop every period
with the given id; if the deleted period was active
(`deletedPeriod?.isActive`) and survivors remain, set `isActive` on the
first survivor (the survivor with the latest start date). -/
def deletePeriod (periodId : String) (stored : List MonthPeriod) :
    List MonthPeriod :=
  let periods := getAllPeriods stored
  let filteredPeriods := periods.filter (fun p => p.id != periodId)
  if ((periods.find? (fun p => p.id == periodId)).any (fun p => p.isActive)) then
    match filteredPeriods with
    | [] => filteredPeriods
    | h :: t => { h with isActive := true } :: t
  else filteredPeriods

/-- Number of stored periods flagged active. -/
def countActive (stored : List MonthPeriod) : Nat :=
  (stored.filter (fun p => p.isActive)).length

/-- A period-registry operation, as invoked by the UI layer. -/
inductive RegistryOp where
  | create (startDate : Nat) (customName : Option String)
  | setActive (id : String)
  | delete (id : String)

/-- Effect of one registry operation on the stored period list. -/
def applyOp (fmt : Nat → Nat → String) (stored : List MonthPeriod) :
    RegistryOp → List MonthPeriod
  | .create d nm => (createCustomPeriod fmt d nm stored).2
  | .setActive i => setActivePeriod i stored
  | .delete i => deletePeriod i stored

/-- Stored period list after a sequence of registry operations, starting
from the empty registry. -/
def runOps (fmt : Nat → Nat → String) (ops : List RegistryOp) :
    List MonthPeriod :=
  ops.foldl (applyOp fmt) []

/-- Start dates passed to the `create` operations of a sequence. -/
def createDates (ops : List RegistryOp) : List Nat :=
  ops.filterMap (fun op => match op with
    | .create d _ => some d
    | _ => none)

/-- Ids assigned to the periods made by the `create` operations of a
sequence (`createMonthPeriod` derives the id from the start timestamp). -/
def createIds (ops : List RegistryOp) : List String :=
  (createDates ops).map Nat.repr

/-- From `storage.ts` lines 287-299 (`getExpensesForPeriod`): resolve the
period by id among the stored periods; unknown id yields the empty list,
otherwise filter the full expense collection by date membership. -/
def getExpensesForPeriod (periodId : String) (periods : List MonthPeriod)
    (expenses : List Expense) : List Expense :=
  match (getAllPeriods periods).find? (fun p => p.id == periodId) with
  | none => []
  | some period => expenses.filter (fun e => isDateInPeriod e.date period)

/-- From `storage.ts` lines 304-316 (`getIncomeForPeriod`): as for
expenses, on the income collection. -/
def getIncomeForPeriod (periodId : String) (periods : List MonthPeriod)
    (incomes : List Income) : List Income :=
  match (getAllPeriods periods).find? (fun p => p.id == periodId) with
  | none => []
  | some period => incomes.filter (fun i => isDateInPeriod i.date period)

/-- Aggregate record returned by `calculateStatsForPeriod`. -/
structure PeriodStats where
  totalIncome : ℚ
  totalExpenses : ℚ
  balance : ℚ
  incomeCount : Nat
  expenseCount : Nat
deriving DecidableEq

/-- From `storage.ts` lines 351-377 (`calculateStatsForPeriod`): sum the
amounts of the period's income and expense lists
(`reduce((sum, item) => sum + item.amount, 0)`), and report the counts and
the balance. -/
def calculateStatsForPeriod (periodId : String) (periods : List MonthPeriod)
    (expenses : List Expense) (incomes : List Income) : PeriodStats :=
  let income := getIncomeForPeriod periodId periods incomes
  let expensesIn := getExpensesForPeriod periodId periods expenses
  let totalIncome := income.foldl (fun sum item => sum + item.amount) 0
  let totalExpenses := expensesIn.foldl (fun sum item => sum + item.amount) 0
  { totalIncome := totalIncome
    totalExpenses := totalExpenses
    balance := totalIncome - totalExpenses
    incomeCount := income.length
    expenseCount := expensesIn.length }

/-- From `storage.ts` lines 16-24 (`getExpenses`): a storage read failure
is caught and yields the empty collection; otherwise the stored list. -/
def getExpenses (readFail : Bool) (stored : List Expense) : List Expense :=
  if readFail then [] else stored

/-- From `storage.ts` lines 26-39 (`addExpense`): read (read failures
swallowed by `getExpenses`), assign `id := Date.now().toString()`, prepend
(`unshift`), write; a write failure is caught and rethrown. -/
def addExpense (readFail writeFail : Bool) (now : Nat) (expense : ExpenseData)
    (stored : List Expense) : Except Unit (List Expense) :=
  let expenses := getExpenses readFail stored
  let newExpense : Expense :=
    { id := Nat.repr now
      amount := expense.amount
      description := expense.description
      category := expense.category
      date := expense.date }
  if writeFail then .error () else .ok (newExpense :: expenses)

/-- From `storage.ts` lines 41-53 (`updateExpense`): `findIndex` on the id;
when found, replace at that index and write (write failure rethrown); when
not found, nothing is written and the call returns normally. -/
def updateExpense (readFail writeFail : Bool) (updatedExpense : Expense)
    (stored : List Expense) : Except Unit (List Expense) :=
  let expenses := getExpenses readFail stored
  match expenses.findIdx? (fun e => e.id == updatedExpense.id) with
  | some index =>
      if writeFail then .error () else .ok (expenses.set index updatedExpense)
  | none => .ok stored

/-- From `storage.ts` lines 55-64 (`deleteExpense`): filter out the id and
write the result; a write failure is caught and rethrown. -/
def deleteExpense (readFail writeFail : Bool) (id : String)
    (stored : List Expense) : Except Unit (List Expense) :=
  let expenses := getExpenses readFail stored
  let filteredExpenses := expenses.filter (fun e => e.id != id)
  if writeFail then .error () else .ok filteredExpenses

/-- From `storage.ts` lines 66-72 (`clearExpenses`): `removeItem`, with any
failure caught and only logged — the call still returns normally, leaving
the stored collection unchanged when the write failed. -/
def clearExpenses (writeFail : Bool) (stored : List Expense) :
    Except Unit (List Expense) :=
  if writeFail then .ok stored else .ok []

/-- From `storage.ts` lines 76-84 (`getIncome`): read failures yield the
empty collection. -/
def getIncome (readFail : Bool) (stored : List Income) : List Income :=
  if readFail then [] else stored

/-- From `storage.ts` lines 86-112 (`addIncome`): as `addExpense`, on the
income collection (the legacy auto-period block is commented out in the
source). -/
def addIncome (readFail writeFail : Bool) (now : Nat) (income : IncomeData)
    (stored : List Income) : Except Unit (List Income) :=
  let allIncome := getIncome readFail stored
  let newIncome : Income :=
    { id := Nat.repr now
      amount := income.amount
      description := income.description
      source := income.source
      date := income.date }
  if writeFail then .error () else .ok (newIncome :: allIncome)

/-- From `storage.ts` lines 115-127 (`updateIncome`): as `updateExpense`. -/
def updateIncome (readFail writeFail : Bool) (updatedIncome : Income)
    (stored : List Income) : Except Unit (List Income) :=
  let allIncome := getIncome readFail stored
  match allIncome.findIdx? (fun i => i.id == updatedIncome.id) with
  | some index =>
      if writeFail then .error () else .ok (allIncome.set index updatedIncome)
  | none => .ok stored

/-- From `storage.ts` lines 129-138 (`deleteIncome`): as `deleteExpense`. -/
def deleteIncome (readFail writeFail : Bool) (id : String)
    (stored : List Income) : Except Unit (List Income) :=
  let allIncome := getIncome readFail stored
  let filteredIncome := allIncome.filter (fun i => i.id != id)
  if writeFail then .error () else .ok filteredIncome

/-- From `storage.ts` lines 140-146 (`clearIncome`): as `clearExpenses`,
any failure is caught and swallowed. -/
def clearIncome (writeFail : Bool) (stored : List Income) :
    Except Unit (List Income) :=
  if writeFail then .ok stored else .ok []

/-- Normalization used by `verifyRecoveryCode` (`storage.ts` lines 487-498):
`s.toUpperCase().replace(/[\s-]/g, '')` — uppercase every character, then
drop whitespace and dashes. -/
def normalizeCode (s : String) : String :=
  (((s.data.map Char.toUpper).filter
      (fun c => !(c.isWhitespace || c == '-')))).asString

/-- From `storage.ts` lines 487-498 (`verifyRecoveryCode`) together with
lines 434-441 (`getRecoveryCode`): the stored code is `Option String`
(`getItem` returns null when absent); a missing stored code normalizes to
the empty string (`storedCode?.toUpperCase().replace(...) || ''`), and the
normalized input is compared for equality. -/
def verifyRecoveryCode (storedCode : Option String) (code : String) : Bool :=
  let normalizedInput := normalizeCode code
  let normalizedStored := match storedCode with
    | some s => normalizeCode s
    | none => ""
  normalizedInput == normalizedStored

/-- Decimal digit characters of `n`, most significant first; the
functional pattern behind `Nat.toDigitsCore` at base 10. -/
def repChars (n : Nat) : List Char :=
  if h : n < 10 then [Nat.digitChar n]
  else repChars (n / 10) ++ [Nat.digitChar (n % 10)]
decreasing_by exact Nat.div_lt_self (by omega) (by omega)

/-- Reads a digit character back to its value. -/
def digitVal (c : Char) : Nat := c.toNat - 48

/-- Accumulator-style decimal parse, inverse to `repChars`. -/
def parseDigits (l : List Char) : Nat :=
  l.foldl (fun acc c => 10 * acc + digitVal c) 0

/-- Ids of the stored periods, in stored order. -/
def idsOf (s : List MonthPeriod) : List String := s.map MonthPeriod.id

/-- Sample periods for concrete counterexamples and witnesses. -/
def samplePeriod1 : MonthPeriod :=
  { id := "1", startDate := 100, endDate := 200, name := "A", isActive := true }

def samplePeriod2 : MonthPeriod :=
  { id := "2", startDate := 50, endDate := 150, name := "B", isActive := false }

/-- Sample transactions for concrete witnesses. -/
def sampleExpense : Expense :=
  { id := "e1", amount := 5, description := "coffee", category := "Food"
    date := 150 }

def sampleIncome : Income :=
  { id := "i1", amount := 7, description := "pay", source := "Salary"
    date := 300 }

/-- Updated versions of the sample transactions, sharing their ids. -/
def sampleExpense2 : Expense :=
  { id := "e1", amount := 9, description := "lunch", category := "Food"
    date := 160 }

def sampleIncome2 : Income :=
  { id := "i1", amount := 11, description := "bonus", source := "Salary"
    date := 310 }

theorem toDigitsCore_succ (b f n : Nat) (ds : List Char) :
    Nat.toDigitsCore b (f + 1) n ds =
      if n / b = 0 then Nat.digitChar (n % b) :: ds
      else Nat.toDigitsCore b f (n / b) (Nat.digitChar (n % b) :: ds) := rfl

theorem toDigitsCore_eq_repChars :
    ∀ (f n : Nat) (ds : List Char), n < 10 ^ (f + 1) →
      Nat.toDigitsCore 10 (f + 1) n ds = repChars n ++ ds := by
  intro f
  induction f with
  | zero =>
      intro n ds hn
      have h10 : n < 10 := by simpa using hn
      have hdiv : n / 10 = 0 := Nat.div_eq_of_lt h10
      have hmod : n % 10 = n := Nat.mod_eq_of_lt h10
      simp [Nat.toDigitsCore, hdiv, repChars, h10, hmod]
  | succ f ih =>
      intro n ds hn
      by_cases h10 : n < 10
      · have hdiv : n / 10 = 0 := Nat.div_eq_of_lt h10
        have hmod : n % 10 = n := Nat.mod_eq_of_lt h10
        simp [Nat.toDigitsCore, hdiv, repChars, h10, hmod]
      · have hdiv : n / 10 ≠ 0 := by omega
        have hlt : n / 10 < 10 ^ (f + 1) := by
          have : n < 10 ^ (f + 1) * 10 := by
            calc n < 10 ^ (f + 1 + 1) := hn
            _ = 10 ^ (f + 1) * 10 := by ring
          omega
        have hstep := ih (n / 10) (Nat.digitChar (n % 10) :: ds) hlt
        rw [toDigitsCore_succ, if_neg hdiv, hstep]
        conv_rhs => rw [repChars]
        simp [h10]

theorem repr_eq_repChars (n : Nat) : Nat.repr n = (repChars n).asString := by
  have hlt : n < 10 ^ (n + 1) := by
    calc n < 2 ^ n := Nat.lt_two_pow n
    _ ≤ 10 ^ n := Nat.pow_le_pow_left (by omega) n
    _ ≤ 10 ^ (n + 1) := Nat.pow_le_pow_right (by omega) (Nat.le_succ n)
  have := toDigitsCore_eq_repChars n n [] hlt
  simp only [Nat.repr, Nat.toDigits, this, List.append_nil]

theorem digitVal_digitChar (d : Nat) (hd : d < 10) :
    digitVal (Nat.digitChar d) = d := by
  interval_cases d <;> rfl

theorem parseDigits_append (l : List Char) (c : Char) :
    parseDigits (l ++ [c]) = 10 * parseDigits l + digitVal c := by
  simp [parseDigits, List.foldl_append]

theorem parseDigits_shift (l : List Char) (a : Nat) :
    l.foldl (fun acc c => 10 * acc + digitVal c) a =
      a * 10 ^ l.length + parseDigits l := by
  induction l generalizing a with
  | nil => simp [parseDigits]
  | cons c t ih =>
      simp only [List.foldl_cons, List.length_cons, parseDigits]
      rw [ih (10 * a + digitVal c), ih (10 * 0 + digitVal c)]
      ring

theorem parseDigits_repChars (n : Nat) : parseDigits (repChars n) = n := by
  induction n using Nat.strong_induction_on with
  | _ n ih =>
      rw [repChars]
      by_cases h10 : n < 10
      · simp only [h10, dif_pos]
        simp [parseDigits, digitVal_digitChar n h10]
      · simp only [h10, dif_neg, not_false_iff]
        rw [parseDigits_append,
          ih (n / 10) (Nat.div_lt_self (by omega) (by omega)),
          digitVal_digitChar (n % 10) (Nat.mod_lt n (by omega))]
        omega

theorem repChars_injective : Function.Injective repChars := by
  intro m n h
  have := congrArg parseDigits h
  rwa [parseDigits_repChars, parseDigits_repChars] at this

theorem natRepr_injective : Function.Injective Nat.repr := by
  intro m n h
  rw [repr_eq_repChars, repr_eq_repChars] at h
  exact repChars_injective (by
    have := congrArg String.data h
    simpa [List.asString] using this)

theorem periodLE_trans (a b c : MonthPeriod) :
    periodLE a b = true → periodLE b c = true → periodLE a c = true := by
  simp only [periodLE, decide_eq_true_eq]
  omega

theorem periodLE_total (a b : MonthPeriod) :
    (periodLE a b || periodLE b a) = true := by
  simp only [periodLE, Bool.or_eq_true, decide_eq_true_eq]
  omega

theorem getAllPeriods_perm (s : List MonthPeriod) :
    (getAllPeriods s).Perm s :=
  List.mergeSort_perm s periodLE

theorem getAllPeriods_sorted (s : List MonthPeriod) :
    List.Pairwise (fun a b => periodLE a b = true) (getAllPeriods s) :=
  List.sorted_mergeSort periodLE_trans periodLE_total s

theorem getAllPeriods_of_sorted {s : List MonthPeriod}
    (h : List.Pairwise (fun a b => periodLE a b = true) s) :
    getAllPeriods s = s :=
  List.mergeSort_of_sorted h

theorem mem_getAllPeriods {p : MonthPeriod} {s : List MonthPeriod} :
    p ∈ getAllPeriods s ↔ p ∈ s :=
  List.mem_mergeSort

/-- In a list whose `f`-image has no duplicates, elements are determined
by their `f`-value. -/
theorem eq_of_nodup_map {α β : Type} {f : α → β} {l : List α}
    (hN : (l.map f).Nodup) {a b : α} (ha : a ∈ l) (hb : b ∈ l)
    (hf : f a = f b) : a = b := by
  induction l with
  | nil => cases ha
  | cons x t ih =>
      simp only [List.map_cons, List.nodup_cons] at hN
      rcases List.mem_cons.mp ha with rfl | ha' <;>
        rcases List.mem_cons.mp hb with rfl | hb'
      · rfl
      · exact absurd (hf ▸ List.mem_map_of_mem f hb') hN.1
      · exact absurd (hf ▸ List.mem_map_of_mem f ha') hN.1
      · exact ih hN.2 ha' hb'

/-- `find?` by a duplicate-free key returns the unique member with that
key. -/
theorem find?_eq_some_of_nodup {α : Type} {f : α → String} {l : List α}
    (hN : (l.map f).Nodup) {x : α} (hx : x ∈ l) :
    l.find? (fun y => f y == f x) = some x := by
  induction l with
  | nil => cases hx
  | cons a t ih =>
      simp only [List.map_cons, List.nodup_cons] at hN
      by_cases hax : f a = f x
      · have : a = x := by
          rcases List.mem_cons.mp hx with rfl | hx'
          · rfl
          · exact absurd (hax ▸ List.mem_map_of_mem f hx') hN.1
        subst this
        simp [List.find?_cons, hax]
      · have hx' : x ∈ t := by
          rcases List.mem_cons.mp hx with rfl | hx'
          · exact absurd rfl hax
          · exact hx'
        have : (f a == f x) = false := by
          simp [hax]
        simp [List.find?_cons, this, ih hN.2 hx']

/-- At most one element of a duplicate-free-keyed list matches a given
key. -/
theorem length_filter_key_le_one {α : Type} {f : α → String} {l : List α}
    (hN : (l.map f).Nodup) (c : String) :
    (l.filter (fun x => f x == c)).length ≤ 1 := by
  induction l with
  | nil => simp
  | cons a t ih =>
      simp only [List.map_cons, List.nodup_cons] at hN
      by_cases hac : f a = c
      · have ht : t.filter (fun x => f x == c) = [] := by
          rw [List.filter_eq_nil_iff]
          intro b hb
          simp only [beq_iff_eq]
          intro hbc
          have hfab : f a = f b := hac.trans hbc.symm
          exact hN.1 (hfab ▸ List.mem_map_of_mem f hb)
        simp [List.filter_cons, hac, ht]
      · have : (f a == c) = false := by simp [hac]
        simp only [List.filter_cons, this, Bool.false_eq_true, if_false]
        exact ih hN.2

/-- A list containing two distinct values has length at least two. -/
theorem two_le_length_of_mem {α : Type} {l : List α} {a b : α}
    (ha : a ∈ l) (hb : b ∈ l) (hab : a ≠ b) : 2 ≤ l.length := by
  match l with
  | [] => cases ha
  | [x] =>
      simp only [List.mem_singleton] at ha hb
      exact absurd (ha.trans hb.symm) hab
  | x :: y :: t => simp

theorem countActive_of_perm {s t : List MonthPeriod} (h : s.Perm t) :
    countActive s = countActive t :=
  (h.filter _).length_eq

theorem idsOf_setActivePeriod (pid : String) (s : List MonthPeriod) :
    (idsOf (setActivePeriod pid s)).Perm (idsOf s) := by
  unfold setActivePeriod idsOf
  rw [List.map_map]
  exact ((getAllPeriods_perm s).map _)

theorem countActive_setActivePeriod (pid : String) (s : List MonthPeriod) :
    countActive (setActivePeriod pid s) =
      ((getAllPeriods s).filter (fun p => p.id == pid)).length := by
  unfold setActivePeriod countActive
  rw [List.filter_map, List.length_map]
  rfl

theorem countActive_createCustomPeriod (fmt : Nat → Nat → String)
    (d : Nat) (nm : Option String) (s : List MonthPeriod) :
    countActive ((createCustomPeriod fmt d nm s).2) = 1 := by
  unfold createCustomPeriod countActive createMonthPeriod
  simp only [List.filter_cons, List.filter_map]
  simp

theorem idsOf_createCustomPeriod (fmt : Nat → Nat → String)
    (d : Nat) (nm : Option String) (s : List MonthPeriod) :
    (idsOf ((createCustomPeriod fmt d nm s).2)).Perm (Nat.repr d :: idsOf s) := by
  unfold createCustomPeriod createMonthPeriod idsOf
  simp only [List.map_cons, List.map_map]
  exact List.Perm.cons _ ((getAllPeriods_perm s).map _)

theorem setActivePeriod_inv (pid : String) (s : List MonthPeriod)
    (hN : (idsOf s).Nodup) :
    (idsOf (setActivePeriod pid s)).Nodup ∧
      countActive (setActivePeriod pid s) ≤ 1 ∧
      ∀ i ∈ idsOf (setActivePeriod pid s), i ∈ idsOf s := by
  refine ⟨((idsOf_setActivePeriod pid s).nodup_iff).mpr hN, ?_, ?_⟩
  · rw [countActive_setActivePeriod]
    have hNs : (idsOf (getAllPeriods s)).Nodup :=
      (((getAllPeriods_perm s).map MonthPeriod.id).nodup_iff).mpr hN
    exact length_filter_key_le_one hNs pid
  · intro i hi
    exact ((idsOf_setActivePeriod pid s).mem_iff).mp hi

theorem createCustomPeriod_inv (fmt : Nat → Nat → String) (d : Nat)
    (nm : Option String) (s : List MonthPeriod)
    (hN : (idsOf s).Nodup) (hfresh : Nat.repr d ∉ idsOf s) :
    (idsOf ((createCustomPeriod fmt d nm s).2)).Nodup ∧
      countActive ((createCustomPeriod fmt d nm s).2) = 1 ∧
      ∀ i ∈ idsOf ((createCustomPeriod fmt d nm s).2),
        i = Nat.repr d ∨ i ∈ idsOf s := by
  have hperm := idsOf_createCustomPeriod fmt d nm s
  refine ⟨(hperm.nodup_iff).mpr ?_, countActive_createCustomPeriod fmt d nm s, ?_⟩
  · exact List.nodup_cons.mpr ⟨hfresh, hN⟩
  · intro i hi
    have := (hperm.mem_iff).mp hi
    simpa using this

theorem deletePeriod_inv (pid : String) (s : List MonthPeriod)
    (hN : (idsOf s).Nodup) (hA : countActive s ≤ 1) :
    (idsOf (deletePeriod pid s)).Nodup ∧
      countActive (deletePeriod pid s) ≤ 1 ∧
      ∀ i ∈ idsOf (deletePeriod pid s), i ∈ idsOf s := by
  unfold deletePeriod
  have hperm := getAllPeriods_perm s
  have hNs : (idsOf (getAllPeriods s)).Nodup :=
    ((hperm.map MonthPeriod.id).nodup_iff).mpr hN
  have hAs : countActive (getAllPeriods s) ≤ 1 :=
    (countActive_of_perm hperm) ▸ hA
  have hsub : ((getAllPeriods s).filter (fun p => p.id != pid)).Sublist
      (getAllPeriods s) := List.filter_sublist _
  have hidsub : (idsOf ((getAllPeriods s).filter (fun p => p.id != pid))).Sublist
      (idsOf (getAllPeriods s)) := hsub.map _
  have hfiltNodup : (idsOf ((getAllPeriods s).filter (fun p => p.id != pid))).Nodup :=
    hidsub.nodup hNs
  have hfiltA : countActive ((getAllPeriods s).filter (fun p => p.id != pid)) ≤ 1 := by
    calc countActive ((getAllPeriods s).filter (fun p => p.id != pid))
        ≤ countActive (getAllPeriods s) := (hsub.filter _).length_le
      _ ≤ 1 := hAs
  have hmem : ∀ i ∈ idsOf ((getAllPeriods s).filter (fun p => p.id != pid)),
      i ∈ idsOf s := by
    intro i hi
    exact ((hperm.map MonthPeriod.id).mem_iff).mp (hidsub.mem hi)
  by_cases hc : (((getAllPeriods s).find? (fun p => p.id == pid)).any
      (fun p => p.isActive)) = true
  · rw [if_pos hc]
    rcases hfind : (getAllPeriods s).find? (fun p => p.id == pid) with _ | d
    · rw [hfind] at hc
      simp [Option.any] at hc
    · rw [hfind] at hc
      simp only [Option.any] at hc
      have hdmem : d ∈ getAllPeriods s := List.mem_of_find?_eq_some hfind
      have hdid : d.id = pid := by
        have := List.find?_some hfind
        simpa using this
      have hall : ∀ r ∈ (getAllPeriods s).filter (fun p => p.id != pid),
          r.isActive = false := by
        intro r hr
        by_contra hract
        have hract' : r.isActive = true := by
          cases hb : r.isActive
          · exact absurd hb hract
          · rfl
        have hrmem : r ∈ getAllPeriods s := (List.mem_filter.mp hr).1
        have hrid : r.id ≠ pid := by
          have := (List.mem_filter.mp hr).2
          simpa using this
        have hrd : r ≠ d := fun h => hrid (h ▸ hdid)
        have hrf : r ∈ (getAllPeriods s).filter (fun p => p.isActive) :=
          List.mem_filter.mpr ⟨hrmem, hract'⟩
        have hdf : d ∈ (getAllPeriods s).filter (fun p => p.isActive) :=
          List.mem_filter.mpr ⟨hdmem, hc⟩
        have := two_le_length_of_mem hrf hdf hrd
        unfold countActive at hAs
        omega
      rcases hfe : (getAllPeriods s).filter (fun p => p.id != pid) with _ | ⟨h, t⟩
      · rw [hfe]
        simp [idsOf, countActive]
      · rw [hfe]
        have hallht : ∀ r ∈ h :: t, r.isActive = false := hfe ▸ hall
        have htfilter : t.filter (fun p => p.isActive) = [] := by
          rw [List.filter_eq_nil_iff]
          intro r hr
          simp [hallht r (List.mem_cons_of_mem h hr)]
        have hids : idsOf ({ h with isActive := true } :: t) = idsOf (h :: t) := by
          simp [idsOf]
        refine ⟨?_, ?_, ?_⟩
        · rw [hids, ← hfe]
          exact hfiltNodup
        · unfold countActive
          simp [List.filter_cons, htfilter]
        · intro i hi
          rw [hids, ← hfe] at hi
          exact hmem i hi
  · rw [if_neg hc]
    exact ⟨hfiltNodup, hfiltA, hmem⟩

theorem createIds_cons_create (d : Nat) (nm : Option String)
    (t : List RegistryOp) :
    createIds (RegistryOp.create d nm :: t) = Nat.repr d :: createIds t := by
  simp [createIds, createDates, List.filterMap_cons]

theorem createIds_cons_setActive (i : String) (t : List RegistryOp) :
    createIds (RegistryOp.setActive i :: t) = createIds t := by
  simp [createIds, createDates, List.filterMap_cons]

theorem createIds_cons_delete (i : String) (t : List RegistryOp) :
    createIds (RegistryOp.delete i :: t) = createIds t := by
  simp [createIds, createDates, List.filterMap_cons]

/-- Main registry invariant: along any operation sequence whose `create`
ids are fresh and mutually distinct, the stored ids stay duplicate-free
and at most one period stays active. -/
theorem foldl_registry_inv (fmt : Nat → Nat → String) :
    ∀ (ops : List RegistryOp) (s : List MonthPeriod),
      (idsOf s).Nodup → countActive s ≤ 1 →
      (createIds ops).Nodup → (∀ i ∈ createIds ops, i ∉ idsOf s) →
      (idsOf (ops.foldl (applyOp fmt) s)).Nodup ∧
        countActive (ops.foldl (applyOp fmt) s) ≤ 1 := by
  intro ops
  induction ops with
  | nil =>
      intro s h1 h2 _ _
      exact ⟨h1, h2⟩
  | cons op t ih =>
      intro s h1 h2 h3 h4
      rw [List.foldl_cons]
      cases op with
      | create d nm =>
          rw [createIds_cons_create] at h3 h4
          have hfresh : Nat.repr d ∉ idsOf s := h4 _ (List.mem_cons_self _ _)
          obtain ⟨hn, hcnt, hsub⟩ := createCustomPeriod_inv fmt d nm s h1 hfresh
          refine ih _ hn (le_of_eq hcnt) (List.nodup_cons.mp h3).2 ?_
          intro i hi hmem
          rcases hsub i hmem with hEq | hOld
          · exact (List.nodup_cons.mp h3).1 (hEq ▸ hi)
          · exact h4 i (List.mem_cons_of_mem _ hi) hOld
      | setActive j =>
          rw [createIds_cons_setActive] at h3 h4
          obtain ⟨hn, hcnt, hsub⟩ := setActivePeriod_inv j s h1
          refine ih _ hn hcnt h3 ?_
          intro i hi hmem
          exact h4 i hi (hsub i hmem)
      | delete j =>
          rw [createIds_cons_delete] at h3 h4
          obtain ⟨hn, hcnt, hsub⟩ := deletePeriod_inv j s h1 h2
          refine ih _ hn hcnt h3 ?_
          intro i hi hmem
          exact h4 i hi (hsub i hmem)

theorem createIds_nodup_of_createDates {ops : List RegistryOp}
    (h : (createDates ops).Nodup) : (createIds ops).Nodup :=
  List.Nodup.map natRepr_injective h

unseal List.merge List.mergeSort in
/-- C1: the claim as stated is refuted here.  Two `create` calls with the
same start date produce two periods sharing the id `"0"`, and
`setActive "0"` then marks both of them active: the registry holds two
active periods after the third operation. -/
theorem claim1_active_period_uniqueness_cex :
    countActive (runOps (fun _ _ => "")
      [RegistryOp.create 0 none, RegistryOp.create 0 none,
       RegistryOp.setActive (Nat.repr 0)]) = 2 := by decide

/-- C1 (amended): for every sequence of `create`/`setActive`/`delete`
operations from the empty registry in which the `create` operations use
pairwise-distinct start dates, at most one period in the registry has
`isActive = true` after each operation.  (Every prefix of such a sequence
also has pairwise-distinct create dates, so the bound holds after each
intermediate operation as well.) -/
theorem claim1_active_period_uniqueness (fmt : Nat → Nat → String)
    (ops : List RegistryOp) (h : (createDates ops).Nodup) :
    countActive (runOps fmt ops) ≤ 1 :=
  (foldl_registry_inv fmt ops [] (by simp [idsOf]) (by simp [countActive])
    (createIds_nodup_of_createDates h) (by simp [idsOf])).2

/-- C1 witness: the amended theorem applied to a concrete sequence. -/
theorem claim1_active_period_uniqueness_witness :
    countActive (runOps (fun _ _ => "")
      [RegistryOp.create 5 none, RegistryOp.setActive (Nat.repr 5),
       RegistryOp.create 9 none, RegistryOp.delete (Nat.repr 9)]) ≤ 1 :=
  claim1_active_period_uniqueness (fun _ _ => "")
    [RegistryOp.create 5 none, RegistryOp.setActive (Nat.repr 5),
     RegistryOp.create 9 none, RegistryOp.delete (Nat.repr 9)]
    (by simp [createDates, List.filterMap_cons])

unseal List.merge List.mergeSort in
/-- C2: the claim as stated is refuted here.  With one stored period that
is active and whose id is `"1"`, calling `setActive "2"` (an id matching
no stored period) does not leave the registry unchanged: it clears the
stored period's `isActive` flag. -/
theorem claim2_setActive_unknown_noop_cex :
    (∀ p ∈ [samplePeriod1], MonthPeriod.id p ≠ "2") ∧
      setActivePeriod "2" [samplePeriod1] ≠ [samplePeriod1] := by
  decide

/-- C2 (amended): for every stored period set and every id matching no
stored period, `setActive(id)` deactivates every period: the resulting
registry is, up to the reordering done by the sort, the old one with every
`isActive` flag set to `false` (all other fields unchanged).  In
particular no period is active afterwards, and the call is a no-op on the
observable state only when no period was active before. -/
theorem claim2_setActive_unknown_noop (pid : String) (s : List MonthPeriod)
    (h : ∀ p ∈ s, p.id ≠ pid) :
    (setActivePeriod pid s).Perm
        (s.map (fun p => { p with isActive := false })) ∧
      ∀ p ∈ setActivePeriod pid s, p.isActive = false := by
  have hmap : (getAllPeriods s).map (fun p => { p with isActive := p.id == pid })
      = (getAllPeriods s).map (fun p => { p with isActive := false }) := by
    apply List.map_congr_left
    intro p hp
    have : p.id ≠ pid := h p (mem_getAllPeriods.mp hp)
    simp [this]
  constructor
  · unfold setActivePeriod
    rw [hmap]
    exact (getAllPeriods_perm s).map _
  · intro p hp
    unfold setActivePeriod at hp
    rw [hmap] at hp
    obtain ⟨q, _, rfl⟩ := List.mem_map.mp hp
    rfl

/-- C2 witness: the amended theorem applied to a concrete registry. -/
theorem claim2_setActive_unknown_noop_witness :
    (setActivePeriod "2" [samplePeriod1]).Perm
        ([samplePeriod1].map (fun p => { p with isActive := false })) ∧
      ∀ p ∈ setActivePeriod "2" [samplePeriod1], p.isActive = false :=
  claim2_setActive_unknown_noop "2" [samplePeriod1] (by decide)

/-- If the registry has at most one active period and the active period's
id is the deleted one, every survivor of the deletion filter is
inactive. -/
theorem filter_delete_inactive (s : List MonthPeriod) (pid : String)
    (hA : countActive s ≤ 1) (P : MonthPeriod) (hPmem : P ∈ getAllPeriods s)
    (hPid : P.id = pid) (hact : P.isActive = true) :
    ∀ r ∈ (getAllPeriods s).filter (fun p => p.id != pid),
      r.isActive = false := by
  have hAs : countActive (getAllPeriods s) ≤ 1 :=
    (countActive_of_perm (getAllPeriods_perm s)) ▸ hA
  intro r hr
  by_contra hract
  have hract' : r.isActive = true := by
    cases hb : r.isActive
    · exact absurd hb hract
    · rfl
  have hrmem : r ∈ getAllPeriods s := (List.mem_filter.mp hr).1
  have hrid : r.id ≠ pid := by
    have := (List.mem_filter.mp hr).2
    simpa using this
  have hrP : r ≠ P := fun h => hrid (h ▸ hPid)
  have hrf : r ∈ (getAllPeriods s).filter (fun p => p.isActive) :=
    List.mem_filter.mpr ⟨hrmem, hract'⟩
  have hPf : P ∈ (getAllPeriods s).filter (fun p => p.isActive) :=
    List.mem_filter.mpr ⟨hPmem, hact⟩
  have := two_le_length_of_mem hrf hPf hrP
  unfold countActive at hAs
  omega

/-- C3: deleting the period that is currently active, in a well-formed
registry (duplicate-free ids, pairwise-distinct start dates, at most one
active period): if it was the only period the registry becomes empty (so
no period is active); otherwise exactly one survivor is active and every
other survivor has a strictly smaller `startDate` — the activated period
is exactly the remaining period with the maximum `startDate`. -/
theorem claim3_delete_active_reactivation (s : List MonthPeriod)
    (pid : String) (P : MonthPeriod)
    (hNid : (idsOf s).Nodup)
    (hNsd : (s.map MonthPeriod.startDate).Nodup)
    (hA : countActive s ≤ 1)
    (hP : P ∈ s) (hPid : P.id = pid) (hact : P.isActive = true) :
    (s.length = 1 → deletePeriod pid s = []) ∧
    (1 < s.length →
      ∃ q ∈ deletePeriod pid s,
        (deletePeriod pid s).filter (fun r => r.isActive) = [q] ∧
        ∀ r ∈ deletePeriod pid s, r ≠ q → r.startDate < q.startDate) := by
  have hperm := getAllPeriods_perm s
  have hNs : (idsOf (getAllPeriods s)).Nodup :=
    ((hperm.map MonthPeriod.id).nodup_iff).mpr hNid
  have hPmem : P ∈ getAllPeriods s := mem_getAllPeriods.mpr hP
  have hfind : (getAllPeriods s).find? (fun p => p.id == pid) = some P := by
    have := find?_eq_some_of_nodup (f := MonthPeriod.id) hNs hPmem
    rwa [hPid] at this
  have hcond : (((getAllPeriods s).find? (fun p => p.id == pid)).any
      (fun p => p.isActive)) = true := by
    rw [hfind]
    simpa [Option.any] using hact
  have hall := filter_delete_inactive s pid hA P hPmem hPid hact
  have hDel : deletePeriod pid s =
      match (getAllPeriods s).filter (fun p => p.id != pid) with
      | [] => (getAllPeriods s).filter (fun p => p.id != pid)
      | h :: t => { h with isActive := true } :: t := by
    unfold deletePeriod
    rw [if_pos hcond]
  constructor
  · intro hlen
    have hsP : s = [P] := by
      rcases s with _ | ⟨x, t⟩
      · cases hP
      · rcases t with _ | ⟨y, u⟩
        · rcases List.mem_singleton.mp hP with rfl
          rfl
        · simp at hlen
    subst hsP
    have hsorted : getAllPeriods [P] = [P] := List.mergeSort_singleton P
    rw [hDel, hsorted]
    have : [P].filter (fun p => p.id != pid) = [] := by
      simp [List.filter_cons, hPid]
    rw [this]
  · intro hlen
    have hlenp : (getAllPeriods s).length = s.length := hperm.length_eq
    rcases hfe : (getAllPeriods s).filter (fun p => p.id != pid) with _ | ⟨h, t⟩
    · exfalso
      have hallid : ∀ r ∈ getAllPeriods s, r.id = pid := by
        intro r hr
        have := List.filter_eq_nil_iff.mp hfe r hr
        simpa using this
      rcases hgs : getAllPeriods s with _ | ⟨x, u⟩
      · rw [hgs] at hlenp
        simp at hlenp
        omega
      · rcases u with _ | ⟨y, v⟩
        · rw [hgs] at hlenp
          simp at hlenp
          omega
        · have hx : x.id = pid := hallid x (hgs ▸ List.mem_cons_self x _)
          have hy : y.id = pid := hallid y
            (hgs ▸ List.mem_cons_of_mem x (List.mem_cons_self y _))
          rw [hgs] at hNs
          simp only [idsOf, List.map_cons, List.nodup_cons] at hNs
          apply hNs.1
          rw [hx, ← hy]
          exact List.mem_cons_self y.id _
    · rw [hDel, hfe]
      have hsub : ((getAllPeriods s).filter (fun p => p.id != pid)).Sublist
          (getAllPeriods s) := List.filter_sublist _
      have hhs : h ∈ s := by
        have : h ∈ getAllPeriods s := hsub.mem (hfe ▸ List.mem_cons_self h t)
        exact mem_getAllPeriods.mp this
      have hNfilt : ((getAllPeriods s).filter (fun p => p.id != pid)).Nodup := by
        refine List.Sublist.nodup hsub ?_
        exact List.Nodup.of_map _ hNs
      have hht : h ∉ t := by
        rw [hfe] at hNfilt
        exact (List.nodup_cons.mp hNfilt).1
      have hallht : ∀ r ∈ h :: t, r.isActive = false := hfe ▸ hall
      have htfilter : t.filter (fun p => p.isActive) = [] := by
        rw [List.filter_eq_nil_iff]
        intro r hr
        simp [hallht r (List.mem_cons_of_mem h hr)]
      have hsorted := getAllPeriods_sorted s
      have hpw : List.Pairwise (fun a b => periodLE a b = true)
          ((getAllPeriods s).filter (fun p => p.id != pid)) :=
        List.Pairwise.sublist hsub hsorted
      rw [hfe] at hpw
      have hmax : ∀ r ∈ t, r.startDate ≤ h.startDate := by
        intro r hr
        have := (List.pairwise_cons.mp hpw).1 r hr
        simpa [periodLE] using this
      refine ⟨{ h with isActive := true }, List.mem_cons_self _ _, ?_, ?_⟩
      · simp only [List.filter_cons, htfilter]
        rfl
      · intro r hr hrq
        have hrt : r ∈ t := by
          rcases List.mem_cons.mp hr with rfl | hrt
          · exact absurd rfl hrq
          · exact hrt
        have hrs : r ∈ s := by
          have : r ∈ getAllPeriods s :=
            hsub.mem (hfe ▸ List.mem_cons_of_mem h hrt)
          exact mem_getAllPeriods.mp this
        have hrh : r ≠ h := fun hEq => hht (hEq ▸ hrt)
        have hne : r.startDate ≠ h.startDate := by
          intro hEq
          exact hrh (eq_of_nodup_map hNsd hrs hhs hEq)
        have := hmax r hrt
        show r.startDate < h.startDate
        omega

/-- C3 witness: deleting the active period `"1"` from a two-period
registry re-activates the survivor with the larger start date. -/
theorem claim3_delete_active_reactivation_witness :
    ([samplePeriod1, samplePeriod2].length = 1 →
        deletePeriod "1" [samplePeriod1, samplePeriod2] = []) ∧
      (1 < [samplePeriod1, samplePeriod2].length →
        ∃ q ∈ deletePeriod "1" [samplePeriod1, samplePeriod2],
          (deletePeriod "1" [samplePeriod1, samplePeriod2]).filter
              (fun r => r.isActive) = [q] ∧
          ∀ r ∈ deletePeriod "1" [samplePeriod1, samplePeriod2],
            r ≠ q → r.startDate < q.startDate) :=
  claim3_delete_active_reactivation [samplePeriod1, samplePeriod2] "1"
    samplePeriod1 (by decide) (by decide) (by decide) (by decide) (by decide)
    (by decide)

/-- C4: in a registry with duplicate-free ids, a transaction of either
kind is included in the collections that `calculateStatsForPeriod (P.id)`
aggregates over if and only if its date lies within `P.startDate` and
`P.endDate`, both bounds inclusive; the reported counts are exactly the
lengths of those filtered collections. -/
theorem claim4_membership_correctness (periods : List MonthPeriod)
    (expenses : List Expense) (incomes : List Income) (P : MonthPeriod)
    (hP : P ∈ periods) (hN : (idsOf periods).Nodup) :
    (∀ T : Expense, T ∈ expenses →
      (T ∈ getExpensesForPeriod P.id periods expenses ↔
        P.startDate ≤ T.date ∧ T.date ≤ P.endDate)) ∧
    (∀ T : Income, T ∈ incomes →
      (T ∈ getIncomeForPeriod P.id periods incomes ↔
        P.startDate ≤ T.date ∧ T.date ≤ P.endDate)) ∧
    (calculateStatsForPeriod P.id periods expenses incomes).expenseCount =
      (getExpensesForPeriod P.id periods expenses).length ∧
    (calculateStatsForPeriod P.id periods expenses incomes).incomeCount =
      (getIncomeForPeriod P.id periods incomes).length := by
  have hNs : (idsOf (getAllPeriods periods)).Nodup :=
    (((getAllPeriods_perm periods).map MonthPeriod.id).nodup_iff).mpr hN
  have hfind : (getAllPeriods periods).find? (fun p => p.id == P.id) = some P :=
    find?_eq_some_of_nodup (f := MonthPeriod.id) hNs (mem_getAllPeriods.mpr hP)
  have hexp : getExpensesForPeriod P.id periods expenses =
      expenses.filter (fun e => isDateInPeriod e.date P) := by
    unfold getExpensesForPeriod
    rw [hfind]
  have hinc : getIncomeForPeriod P.id periods incomes =
      incomes.filter (fun i => isDateInPeriod i.date P) := by
    unfold getIncomeForPeriod
    rw [hfind]
  refine ⟨?_, ?_, rfl, rfl⟩
  · intro T hT
    rw [hexp, List.mem_filter]
    simp [isDateInPeriod, hT]
  · intro T hT
    rw [hinc, List.mem_filter]
    simp [isDateInPeriod, hT]

/-- C4 witness: the theorem applied to a one-period registry with one
expense inside the range and one income outside it. -/
theorem claim4_membership_correctness_witness :
    (∀ T : Expense, T ∈ [sampleExpense] →
      (T ∈ getExpensesForPeriod samplePeriod1.id [samplePeriod1] [sampleExpense] ↔
        samplePeriod1.startDate ≤ T.date ∧ T.date ≤ samplePeriod1.endDate)) ∧
    (∀ T : Income, T ∈ [sampleIncome] →
      (T ∈ getIncomeForPeriod samplePeriod1.id [samplePeriod1] [sampleIncome] ↔
        samplePeriod1.startDate ≤ T.date ∧ T.date ≤ samplePeriod1.endDate)) ∧
    (calculateStatsForPeriod samplePeriod1.id [samplePeriod1] [sampleExpense]
        [sampleIncome]).expenseCount =
      (getExpensesForPeriod samplePeriod1.id [samplePeriod1] [sampleExpense]).length ∧
    (calculateStatsForPeriod samplePeriod1.id [samplePeriod1] [sampleExpense]
        [sampleIncome]).incomeCount =
      (getIncomeForPeriod samplePeriod1.id [samplePeriod1] [sampleIncome]).length :=
  claim4_membership_correctness [samplePeriod1] [sampleExpense] [sampleIncome]
    samplePeriod1 (by decide) (by decide)

/-- C5: for an id matching no stored period, `calculateStatsForPeriod`
returns the all-zero aggregate record rather than failing. -/
theorem claim5_unknown_period_stats (pid : String)
    (periods : List MonthPeriod) (expenses : List Expense)
    (incomes : List Income) (h : ∀ p ∈ periods, p.id ≠ pid) :
    calculateStatsForPeriod pid periods expenses incomes =
      { totalIncome := 0, totalExpenses := 0, balance := 0
        incomeCount := 0, expenseCount := 0 } := by
  have hfind : (getAllPeriods periods).find? (fun p => p.id == pid) = none := by
    rw [List.find?_eq_none]
    intro x hx
    simpa using h x (mem_getAllPeriods.mp hx)
  unfold calculateStatsForPeriod getExpensesForPeriod getIncomeForPeriod
  rw [hfind]
  simp

/-- C5 witness: unknown id `"nope"` against a nonempty registry and
nonempty collections. -/
theorem claim5_unknown_period_stats_witness :
    calculateStatsForPeriod "nope" [samplePeriod1] [sampleExpense]
        [sampleIncome] =
      { totalIncome := 0, totalExpenses := 0, balance := 0
        incomeCount := 0, expenseCount := 0 } :=
  claim5_unknown_period_stats "nope" [samplePeriod1] [sampleExpense]
    [sampleIncome] (by decide)

/-- C6: the claim as stated is refuted here.  `clearExpenses` and
`clearIncome` catch the persistence failure without rethrowing: with the
write failing they still return success (and the stored collection is left
unchanged), so the write failure is not propagated to the caller. -/
theorem claim6_write_failure_propagation_cex :
    clearExpenses true [sampleExpense] = Except.ok [sampleExpense] ∧
      clearIncome true [sampleIncome] = Except.ok [sampleIncome] :=
  ⟨rfl, rfl⟩

/-- C6 (amended): `add` and `delete` always propagate a write failure as
a failure; `update` propagates it exactly when a matching id exists (with
no match nothing is written and the call succeeds); `clear` swallows the
write failure and reports success; and a read failure is swallowed
everywhere, the collection being treated as empty.  Both the expense and
the income collections behave identically. -/
theorem claim6_write_failure_propagation (rf : Bool) (now : Nat)
    (e : ExpenseData) (u : Expense) (eid : String) (es : List Expense)
    (j : IncomeData) (v : Income) (iid : String) (inc : List Income) :
    addExpense rf true now e es = Except.error () ∧
    deleteExpense rf true eid es = Except.error () ∧
    (updateExpense rf true u es =
      match (getExpenses rf es).findIdx? (fun x => x.id == u.id) with
      | some _ => Except.error ()
      | none => Except.ok es) ∧
    clearExpenses true es = Except.ok es ∧
    getExpenses true es = [] ∧
    addIncome rf true now j inc = Except.error () ∧
    deleteIncome rf true iid inc = Except.error () ∧
    (updateIncome rf true v inc =
      match (getIncome rf inc).findIdx? (fun x => x.id == v.id) with
      | some _ => Except.error ()
      | none => Except.ok inc) ∧
    clearIncome true inc = Except.ok inc ∧
    getIncome true inc = [] := by
  refine ⟨rfl, rfl, ?_, rfl, rfl, rfl, rfl, ?_, rfl, rfl⟩
  · unfold updateExpense
    rcases hfi : (getExpenses rf es).findIdx? (fun x => x.id == u.id) with _ | i
    · rfl
    · rfl
  · unfold updateIncome
    rcases hfi : (getIncome rf inc).findIdx? (fun x => x.id == v.id) with _ | i
    · rfl
    · rfl

/-- C7: the claim as stated is refuted here.  The period id is derived
from the given `startDate` timestamp, not from the creation-time clock:
two `create` calls with the same start date (here 42) return periods with
identical ids. -/
theorem claim7_period_id_cex :
    (createCustomPeriod (fun _ _ => "") 42 none []).1.id =
      (createCustomPeriod (fun _ _ => "") 42 none
        (createCustomPeriod (fun _ _ => "") 42 none []).2).1.id := rfl

/-- C7 (amended): every period created by `create(startDate, name?)` is
assigned the id `startDate.getTime().toString()` — the decimal string of
the period's start timestamp, not of the creation-time clock; two create
calls with distinct start dates produce periods with distinct ids; and
along any operation sequence whose create calls use pairwise-distinct
start dates, the ids in the registry remain pairwise distinct. -/
theorem claim7_period_id_from_start (fmt : Nat → Nat → String)
    (d1 d2 : Nat) (nm1 nm2 : Option String) (s1 s2 : List MonthPeriod)
    (hne : d1 ≠ d2) :
    (createCustomPeriod fmt d1 nm1 s1).1.id = Nat.repr d1 ∧
    (createCustomPeriod fmt d1 nm1 s1).1.id ≠
      (createCustomPeriod fmt d2 nm2 s2).1.id ∧
    ∀ ops : List RegistryOp, (createDates ops).Nodup →
      (idsOf (runOps fmt ops)).Nodup := by
  refine ⟨rfl, ?_, ?_⟩
  · show Nat.repr d1 ≠ Nat.repr d2
    exact fun h => hne (natRepr_injective h)
  · intro ops h
    exact (foldl_registry_inv fmt ops [] (by simp [idsOf])
      (by simp [countActive]) (createIds_nodup_of_createDates h)
      (by simp [idsOf])).1

/-- C7 witness: the amended theorem at concrete distinct start dates. -/
theorem claim7_period_id_from_start_witness :
    (createCustomPeriod (fun _ _ => "") 3 none []).1.id = Nat.repr 3 ∧
    (createCustomPeriod (fun _ _ => "") 3 none []).1.id ≠
      (createCustomPeriod (fun _ _ => "") 4 none []).1.id ∧
    ∀ ops : List RegistryOp, (createDates ops).Nodup →
      (idsOf (runOps (fun _ _ => "") ops)).Nodup :=
  claim7_period_id_from_start (fun _ _ => "") 3 4 none none [] [] (by decide)

/-- C8: every period made by `create(startDate, name?)` keeps the given
start date, has `endDate = startDate + 30` days (a fixed millisecond
offset in the DST-free date model, not calendar-month-aware), and is
returned with `isActive = true`. -/
theorem claim8_create_thirty_days_active (fmt : Nat → Nat → String)
    (d : Nat) (nm : Option String) (s : List MonthPeriod) :
    ((createCustomPeriod fmt d nm s).1).startDate = d ∧
    ((createCustomPeriod fmt d nm s).1).endDate = d + 30 * msPerDay ∧
    ((createCustomPeriod fmt d nm s).1).isActive = true :=
  ⟨rfl, rfl, rfl⟩

/-- In a list with duplicate-free keys, `findIdx?` on the key of the
element at position `i` returns exactly `i`. -/
theorem findIdx?_key_of_nodup {α : Type} {f : α → String} {l : List α}
    (hN : (l.map f).Nodup) {i : Nat} {x : α} (hix : l[i]? = some x)
    {c : String} (hc : f x = c) :
    l.findIdx? (fun y => f y == c) = some i := by
  obtain ⟨hlt, hgx⟩ := List.getElem?_eq_some.mp hix
  rw [List.findIdx?_eq_some_iff_getElem]
  refine ⟨hlt, by simp [hgx, hc], ?_⟩
  intro j hji hP
  have hj : j < l.length := Nat.lt_trans hji hlt
  have hfj : f (l[j]) = c := by simpa using hP
  have hfi : f (l[i]) = c := by rw [hgx, hc]
  have hN' := List.pairwise_iff_getElem.mp hN j i
    (by simpa using hj) (by simpa using hlt) hji
  apply hN'
  simp only [List.getElem_map]
  rw [hfj, hfi]

/-- C9: updating a transaction record.  With no stored record of the
matching id, the call leaves the collection unchanged and reports
success; with duplicate-free ids and a record of the matching id at
position `i`, the call succeeds with exactly position `i` replaced by the
updated record — the length and every other position are unchanged.  Both
the expense and income collections behave identically. -/
theorem claim9_update_in_place (es : List Expense) (u : Expense)
    (inc : List Income) (v : Income) :
    ((∀ e ∈ es, e.id ≠ u.id) → updateExpense false false u es = Except.ok es) ∧
    ((es.map Expense.id).Nodup → ∀ (i : Nat) (x : Expense), es[i]? = some x →
      x.id = u.id →
      updateExpense false false u es = Except.ok (es.set i u) ∧
      (es.set i u).length = es.length ∧
      (es.set i u)[i]? = some u ∧
      ∀ j : Nat, j ≠ i → (es.set i u)[j]? = es[j]?) ∧
    ((∀ e ∈ inc, e.id ≠ v.id) → updateIncome false false v inc = Except.ok inc) ∧
    ((inc.map Income.id).Nodup → ∀ (i : Nat) (x : Income), inc[i]? = some x →
      x.id = v.id →
      updateIncome false false v inc = Except.ok (inc.set i v) ∧
      (inc.set i v).length = inc.length ∧
      (inc.set i v)[i]? = some v ∧
      ∀ j : Nat, j ≠ i → (inc.set i v)[j]? = inc[j]?) := by
  refine ⟨?_, ?_, ?_, ?_⟩
  · intro h
    have hfi : es.findIdx? (fun x => x.id == u.id) = none := by
      rw [List.findIdx?_eq_none_iff]
      intro x hx
      simp [h x hx]
    unfold updateExpense getExpenses
    simp only [if_neg Bool.false_ne_true, hfi]
  · intro hN i x hix hid
    have hfi : es.findIdx? (fun y => y.id == u.id) = some i :=
      findIdx?_key_of_nodup (f := Expense.id) hN hix hid
    have hlt : i < es.length := (List.getElem?_eq_some.mp hix).1
    refine ⟨?_, List.length_set es i u, ?_, ?_⟩
    · unfold updateExpense getExpenses
      simp only [if_neg Bool.false_ne_true, hfi]
    · rw [List.getElem?_set]
      simp [hlt]
    · intro j hj
      rw [List.getElem?_set]
      simp [Ne.symm hj]
  · intro h
    have hfi : inc.findIdx? (fun x => x.id == v.id) = none := by
      rw [List.findIdx?_eq_none_iff]
      intro x hx
      simp [h x hx]
    unfold updateIncome getIncome
    simp only [if_neg Bool.false_ne_true, hfi]
  · intro hN i x hix hid
    have hfi : inc.findIdx? (fun y => y.id == v.id) = some i :=
      findIdx?_key_of_nodup (f := Income.id) hN hix hid
    have hlt : i < inc.length := (List.getElem?_eq_some.mp hix).1
    refine ⟨?_, List.length_set inc i v, ?_, ?_⟩
    · unfold updateIncome getIncome
      simp only [if_neg Bool.false_ne_true, hfi]
    · rw [List.getElem?_set]
      simp [hlt]
    · intro j hj
      rw [List.getElem?_set]
      simp [Ne.symm hj]

/-- C9 witness: updating the records with matching ids at position 0
replaces exactly those records in place. -/
theorem claim9_update_in_place_witness :
    updateExpense false false sampleExpense2 [sampleExpense] =
        Except.ok ([sampleExpense].set 0 sampleExpense2) ∧
      updateIncome false false sampleIncome2 [sampleIncome] =
        Except.ok ([sampleIncome].set 0 sampleIncome2) :=
  ⟨((claim9_update_in_place [sampleExpense] sampleExpense2 [sampleIncome]
      sampleIncome2).2.1 (by decide) 0 sampleExpense (by decide) (by decide)).1,
   ((claim9_update_in_place [sampleExpense] sampleExpense2 [sampleIncome]
      sampleIncome2).2.2.2 (by decide) 0 sampleIncome (by decide) (by decide)).1⟩

theorem toUpper_eq_self_of_whitespace (c : Char)
    (h : c.isWhitespace = true) : c.toUpper = c := by
  simp only [Char.isWhitespace, Bool.or_eq_true, decide_eq_true_eq] at h
  rcases h with ((h | h) | h) | h <;> subst h <;> decide

/-- C10: with no recovery code stored, `verifyRecoveryCode` accepts every
input made only of whitespace and dash characters (the empty string
included): both sides normalize to the empty string and compare equal. -/
theorem claim10_blank_code_accepted (code : String)
    (h : ∀ c ∈ code.data, c.isWhitespace = true ∨ c = '-') :
    verifyRecoveryCode none code = true := by
  unfold verifyRecoveryCode normalizeCode
  have hfilt : ((code.data.map Char.toUpper).filter
      (fun c => !(c.isWhitespace || c == '-'))) = [] := by
    rw [List.filter_eq_nil_iff]
    intro b hb
    obtain ⟨a, ha, rfl⟩ := List.mem_map.mp hb
    rcases h a ha with hws | hdash
    · rw [toUpper_eq_self_of_whitespace a hws]
      simp [hws]
    · subst hdash
      decide
  rw [hfilt]
  rfl

/-- C10 witness: the empty string and a dash/space string are accepted
when no recovery code is stored. -/
theorem claim10_blank_code_accepted_witness :
    verifyRecoveryCode none "" = true ∧
      verifyRecoveryCode none " - " = true :=
  ⟨claim10_blank_code_accepted "" (by decide),
   claim10_blank_code_accepted " - " (by decide)⟩
